import Mathlib

set_option maxRecDepth 40000

/-
Verification of the iterative text compressor (llm_text_compressor.py).

The embedding works at the token level: a document is represented by its
token encoding, a list over an arbitrary token type.  The tiktoken encoder
and decoder are external collaborators; the spec round-trip invariant
decode (encode text) = text lets every chunk-level property be stated on
token lists directly.  The external LLM call is modelled as a parameter,
either a per-chunk service function (compress_chunk) or a whole-iteration
body function (convergence loop).
-/

namespace LlmTextCompressor

/-! ### Chunk splitter: split_text_into_chunks

The Python loop is

    start = 0
    while start < len(tokens):
        end = min(start + max_chunk_size, len(tokens))
        chunk_tokens = tokens[start:end]
        chunks.append(decode(chunk_tokens))
        chunk_token_counts.append(len(chunk_tokens))
        start = end

Chunks are kept as token lists (the source stores their decoding).  The
while loop is embedded with a fuel argument whose variant is
tokens.length - start; fuel tokens.length suffices whenever
max_chunk_size is at least 1 (for non-positive max_chunk_size the loop
index never advances, see the loop-step model below). -/

def splitGo {α : Type} (max_chunk_size : ℕ) (tokens : List α) :
    ℕ → ℕ → List (List α) × List ℕ
  | 0, _ => ([], [])
  | fuel + 1, start =>
    if start < tokens.length then
      let e := min (start + max_chunk_size) tokens.length
      let chunk_tokens := (tokens.drop start).take (e - start)
      let rest := splitGo max_chunk_size tokens fuel e
      (chunk_tokens :: rest.1, chunk_tokens.length :: rest.2)
    else
      ([], [])

def split_text_into_chunks {α : Type} (tokens : List α) (max_chunk_size : ℕ) :
    List (List α) × List ℕ :=
  splitGo max_chunk_size tokens tokens.length 0

/-- The loop-index update of split_text_into_chunks, over the integers so
that a non-positive max_chunk_size (Python int) can be analysed:
start = end = min(start + max_chunk_size, len(tokens)). -/
def split_loop_next (max_chunk_size len start : ℤ) : ℤ :=
  min (start + max_chunk_size) len

/-- Model limit lookup in main: MODEL_TOKEN_LIMITS.get(model_name, 4096) - 1000. -/
def model_max_tokens (model_limit : ℕ) : ℤ :=
  (model_limit : ℤ) - 1000

/-- max_chunk_size = model_max_tokens - tokens_reserved_for_prompt. -/
def max_chunk_size_of (model_limit tokens_reserved_for_prompt : ℕ) : ℤ :=
  model_max_tokens model_limit - (tokens_reserved_for_prompt : ℤ)

lemma splitGo_stop {α : Type} (max_chunk_size : ℕ) (tokens : List α) :
    ∀ fuel start, tokens.length ≤ start →
      splitGo max_chunk_size tokens fuel start = ([], []) := by
  intro fuel
  induction fuel with
  | zero => intro start _; rfl
  | succ fuel _ =>
    intro start h
    simp only [splitGo]
    rw [if_neg (by omega)]

lemma splitGo_spec {α : Type} (max_chunk_size : ℕ) (hmcs : 1 ≤ max_chunk_size)
    (tokens : List α) :
    ∀ fuel start, tokens.length ≤ start + fuel →
      (splitGo max_chunk_size tokens fuel start).1.flatten = tokens.drop start ∧
      (∀ c ∈ (splitGo max_chunk_size tokens fuel start).1,
        c.length ≤ max_chunk_size) ∧
      (splitGo max_chunk_size tokens fuel start).2
        = (splitGo max_chunk_size tokens fuel start).1.map List.length := by
  intro fuel
  induction fuel with
  | zero =>
    intro start h
    refine ⟨?_, ?_, ?_⟩
    · simp only [splitGo]
      rw [List.drop_eq_nil_of_le (by omega)]
      rfl
    · intro c hc
      simp only [splitGo, List.not_mem_nil] at hc
    · rfl
  | succ fuel ih =>
    intro start h
    by_cases hs : start < tokens.length
    · have he : start + 1 ≤ min (start + max_chunk_size) tokens.length := by omega
      obtain ⟨ih1, ih2, ih3⟩ :=
        ih (min (start + max_chunk_size) tokens.length) (by omega)
      simp only [splitGo, if_pos hs]
      refine ⟨?_, ?_, ?_⟩
      · rw [List.flatten_cons, ih1]
        have hds : (tokens.drop start).drop
              (min (start + max_chunk_size) tokens.length - start)
            = tokens.drop (min (start + max_chunk_size) tokens.length) := by
          rw [List.drop_drop]
          congr 1
          omega
        rw [← hds, List.take_append_drop]
      · intro c hc
        rcases List.mem_cons.1 hc with hc | hc
        · subst hc
          have := List.length_take_le
            (min (start + max_chunk_size) tokens.length - start) (tokens.drop start)
          omega
        · exact ih2 c hc
      · rw [List.map_cons, ih3]
    · refine ⟨?_, ?_, ?_⟩
      · simp only [splitGo, if_neg hs]
        rw [List.drop_eq_nil_of_le (by omega)]
        rfl
      · intro c hc
        simp only [splitGo, if_neg hs, List.not_mem_nil] at hc
      · simp only [splitGo, if_neg hs, List.map_nil]

lemma split_single {α : Type} (tokens : List α) (max_chunk_size : ℕ)
    (hmcs : 1 ≤ max_chunk_size) (hle : tokens.length ≤ max_chunk_size)
    (hne : tokens ≠ []) :
    split_text_into_chunks tokens max_chunk_size = ([tokens], [tokens.length]) := by
  have hlen : 0 < tokens.length := List.length_pos.2 hne
  obtain ⟨n, hn⟩ : ∃ n, tokens.length = n + 1 := ⟨tokens.length - 1, by omega⟩
  have hfuel : split_text_into_chunks tokens max_chunk_size
      = splitGo max_chunk_size tokens (n + 1) 0 := by
    unfold split_text_into_chunks
    rw [hn]
  rw [hfuel]
  simp only [splitGo]
  rw [if_pos hlen]
  have hmin : min (0 + max_chunk_size) tokens.length = tokens.length := by omega
  rw [hmin, splitGo_stop max_chunk_size tokens n tokens.length (le_refl _)]
  simp [List.take_length]

/-! ### Target allocator: compute_target_word_count_per_chunk

Python numeric operations are embedded as exact rational arithmetic;
int(x) is truncation toward zero (pyTrunc). -/

/-- Truncation toward zero, the behaviour of int() on a Python number. -/
def pyTrunc (q : ℚ) : ℤ :=
  if 0 ≤ q then ⌊q⌋ else ⌈q⌉

def compute_target_word_count_per_chunk (chunk_tokens_len total_tokens_len : ℕ)
    (token_target : ℤ) (aggression_factor : ℚ) : ℤ :=
  let chunk_proportion : ℚ :=
    if 0 < total_tokens_len then (chunk_tokens_len : ℚ) / (total_tokens_len : ℚ) else 0
  let target_tokens_per_chunk : ℚ :=
    if aggression_factor ≠ 0 then (chunk_proportion * (token_target : ℚ)) / aggression_factor
    else 0
  max (pyTrunc (target_tokens_per_chunk / (13 / 10))) 1

/-- The allocator formula as the spec states it (refinement reference):
targetWords = max(floor(((chunkTokens / totalTokens) * globalTokenTarget)
/ aggressionFactor / tokensPerWord), 1) with tokensPerWord = 1.3. -/
def spec_target_word_count (chunk_tokens_len total_tokens_len : ℕ)
    (token_target : ℤ) (aggression_factor : ℚ) : ℤ :=
  max ⌊(((chunk_tokens_len : ℚ) / (total_tokens_len : ℚ)) * (token_target : ℚ))
        / aggression_factor / (13 / 10)⌋ 1

lemma max_pyTrunc_one (q : ℚ) : max (pyTrunc q) 1 = max ⌊q⌋ 1 := by
  by_cases h : 0 ≤ q
  · simp [pyTrunc, h]
  · have hq : q ≤ 0 := le_of_lt (lt_of_not_le h)
    have h1 : ⌈q⌉ ≤ 0 := Int.ceil_le.mpr (by exact_mod_cast hq)
    have h2 : ⌊q⌋ ≤ 0 := Int.floor_nonpos hq
    simp only [pyTrunc, if_neg h]
    omega

/-! ### Prompt templates: get_prompts

Python str.replace(pat, repl) replaces every occurrence of a non-empty
pattern, scanning left to right without rescanning the inserted
replacement; replaceAll embeds that on character lists. -/

def replaceAllGo (pat repl : List Char) : ℕ → List Char → List Char
  | 0, s => s
  | _ + 1, [] => []
  | fuel + 1, c :: rest =>
    if 0 < pat.length ∧ pat.isPrefixOf (c :: rest) then
      repl ++ replaceAllGo pat repl fuel (List.drop pat.length (c :: rest))
    else
      c :: replaceAllGo pat repl fuel rest

/-- Every step consumes at least one character of the scanned list (the
matching branch requires a non-empty pattern), so fuel s.length always
suffices and the recursion is structural on the fuel. -/
def replaceAll (pat repl s : List Char) : List Char :=
  replaceAllGo pat repl s.length s

def pyReplace (s pat repl : String) : String :=
  String.mk (replaceAll pat.toList repl.toList s.toList)

/-- Substring test: true when pat occurs contiguously in the list. -/
def containsSub (pat : List Char) : List Char → Bool
  | [] => pat.isEmpty
  | c :: rest => pat.isPrefixOf (c :: rest) || containsSub pat rest

def mentionsJsonFormat (s : String) : Bool :=
  containsSub "format the output as JSON".toList s.toList

def system_message : String :=
  "You are a compression assistant. Your task is to compress text to a specified word count or summary format. Follow the specified compression style, using concise language while retaining essential details."

/-- The prompt dictionary of get_prompts before the {json_spec} substitution,
in source order. -/
def base_prompts : List (String × String) :=
  [("auto_detect", "Review the following text and choose a mode of compression that best suits the type of content provided, aiming for around {target_word_count} words{json_spec}. Here is the text to analysize and compress:\n\n{chunk_string}"),
   ("bullet_points", "Summarize the following text into clear bullet points, with each point capturing an essential idea. Aim for approximately {target_word_count} words{json_spec}:\n\n{chunk_string}"),
   ("glossary_terms", "Extract and define key terms and concepts from the following text, presenting them as a glossary list. Aim for around {target_word_count} words{json_spec}:\n\n{chunk_string}"),
   ("outline", "Create a structured outline with headings and subheadings, capturing the primary structure and flow of the text. Aim for around {target_word_count} words{json_spec}. Use hierarchical headings to emphasize key points and their relationships:\n\n{chunk_string}"),
   ("critical_analysis", "Provide a brief analysis of the main points, discussing strengths, weaknesses, or important themes present in the text. Aim for around {target_word_count} words{json_spec}:\n\n{chunk_string}"),
   ("facts_database", "Extract factual statements from the following text, summarizing key details, statistics, and verifiable information. Aim for around {target_word_count} words{json_spec}:\n\n{chunk_string}"),
   ("keywords_keyphrases", "List key terms and phrases that represent the main ideas of the following text. Limit the list to approximately {target_word_count} words{json_spec}:\n\n{chunk_string}")]

def get_prompts (is_json : Bool) : String × List (String × String) :=
  (system_message,
    if is_json then
      base_prompts.map
        (fun kv => (kv.1, pyReplace kv.2 "{json_spec}" " and format the output as JSON"))
    else
      base_prompts.map
        (fun kv => (kv.1, pyReplace kv.2 "{json_spec}" "")))

/-! ### Chunk compressor: compress_chunk

The OpenAI call is the external collaborator: a function from the system
message and the user prompt to either an error (any raised exception) or
the returned message content, which Python allows to be None.  The source
wraps the call and the .strip() in try/except and substitutes the empty
string on any exception. -/

/-- Python str.strip(): remove leading and trailing whitespace. -/
def pyStrip (s : String) : String :=
  String.mk (((s.toList.dropWhile Char.isWhitespace).reverse.dropWhile
    Char.isWhitespace).reverse)

/-- Python template.format(target_word_count=n, chunk_string=chunk):
both fields are substituted, and text coming from the substituted values
is not rescanned. -/
def pyFormat (template : String) (target_word_count : ℤ) (chunk_string : String) :
    String :=
  String.mk (replaceAll "{chunk_string}".toList chunk_string.toList
    (replaceAll "{target_word_count}".toList (toString target_word_count).toList
      template.toList))

def compress_chunk (service : String → String → Except String (Option String))
    (chunk : String) (template : String) (target_word_count : ℤ)
    (sys_message : String) : String :=
  match service sys_message (pyFormat template target_word_count chunk) with
  | Except.ok (some content) => pyStrip content
  | Except.ok none => ""
  | Except.error _ => ""

/-! ### Convergence loop (main, lines 99-125)

    compressed_text = large_text
    current_tokens = count(compressed_text)
    iteration = 0; max_iterations = 100; aggression_factor = 1.2
    while current_tokens > token_target and iteration < max_iterations:
        compressed_text = (split, compress each chunk, join)  -- the body
        current_tokens = count(compressed_text)
        aggression_factor *= 1.1
        iteration += 1

The per-iteration body (split + per-chunk compression + join) depends on
the external service, so it is a parameter body : Doc → ℚ → Doc receiving
the current document and the current aggression factor; count is the
token counter.  The loop is structural on remaining = max_iterations -
iteration, so the guard iteration < 100 is remaining > 0.  Aggression
values 1.2 and 1.1 are exact rationals. -/

def loopAux {Doc : Type} (body : Doc → ℚ → Doc) (count : Doc → ℕ)
    (token_target : ℤ) : ℕ → Doc → ℚ → ℕ → Doc × ℕ
  | 0, doc, _, iteration => (doc, iteration)
  | remaining + 1, doc, aggression_factor, iteration =>
    if token_target < (count doc : ℤ) then
      loopAux body count token_target remaining (body doc aggression_factor)
        (aggression_factor * (11 / 10)) (iteration + 1)
    else
      (doc, iteration)

/-- The whole loop: returns the final document and the final iteration
counter (the number of compression iterations performed). -/
def convergence_loop {Doc : Type} (body : Doc → ℚ → Doc) (count : Doc → ℕ)
    (token_target : ℤ) (large_text : Doc) : Doc × ℕ :=
  loopAux body count token_target 100 large_text (6 / 5) 0

lemma loopAux_converged {Doc : Type} (body : Doc → ℚ → Doc) (count : Doc → ℕ)
    (token_target : ℤ) (doc : Doc) (aggr : ℚ) (iteration : ℕ)
    (h : (count doc : ℤ) ≤ token_target) (r : ℕ) :
    loopAux body count token_target (r + 1) doc aggr iteration = (doc, iteration) := by
  simp only [loopAux]
  rw [if_neg (not_lt.2 h)]

lemma loopAux_iter_le {Doc : Type} (body : Doc → ℚ → Doc) (count : Doc → ℕ)
    (token_target : ℤ) :
    ∀ (remaining : ℕ) (doc : Doc) (aggr : ℚ) (iteration : ℕ),
      (loopAux body count token_target remaining doc aggr iteration).2
        ≤ iteration + remaining := by
  intro remaining
  induction remaining with
  | zero => intro doc aggr it; exact le_refl it
  | succ r ih =>
    intro doc aggr it
    simp only [loopAux]
    by_cases hg : token_target < (count doc : ℤ)
    · rw [if_pos hg]
      have h := ih (body doc aggr) (aggr * (11 / 10)) (it + 1)
      omega
    · rw [if_neg hg]
      show it ≤ it + (r + 1)
      omega

lemma loopAux_exit_converged {Doc : Type} (body : Doc → ℚ → Doc) (count : Doc → ℕ)
    (token_target : ℤ) :
    ∀ (remaining : ℕ) (doc : Doc) (aggr : ℚ) (iteration : ℕ),
      (loopAux body count token_target remaining doc aggr iteration).2
          < iteration + remaining →
      (count (loopAux body count token_target remaining doc aggr iteration).1 : ℤ)
        ≤ token_target := by
  intro remaining
  induction remaining with
  | zero =>
    intro doc aggr it h
    have hh : (loopAux body count token_target 0 doc aggr it).2 = it := rfl
    omega
  | succ r ih =>
    intro doc aggr it h
    simp only [loopAux] at h ⊢
    by_cases hg : token_target < (count doc : ℤ)
    · rw [if_pos hg] at h ⊢
      refine ih (body doc aggr) (aggr * (11 / 10)) (it + 1) ?_
      omega
    · rw [if_neg hg] at h ⊢
      show (count doc : ℤ) ≤ token_target
      omega

lemma loopAux_never_reduces {Doc : Type} (body : Doc → ℚ → Doc) (count : Doc → ℕ)
    (token_target : ℤ) (hbody : ∀ d a, count d ≤ count (body d a)) :
    ∀ (remaining : ℕ) (doc : Doc) (aggr : ℚ) (iteration : ℕ),
      token_target < (count doc : ℤ) →
      (loopAux body count token_target remaining doc aggr iteration).2
          = iteration + remaining ∧
      count doc
        ≤ count (loopAux body count token_target remaining doc aggr iteration).1 := by
  intro remaining
  induction remaining with
  | zero => intro doc aggr it _; exact ⟨rfl, le_refl _⟩
  | succ r ih =>
    intro doc aggr it h
    simp only [loopAux]
    rw [if_pos h]
    have hd : token_target < (count (body doc aggr) : ℤ) :=
      lt_of_lt_of_le h (by exact_mod_cast hbody doc aggr)
    obtain ⟨h1, h2⟩ := ih (body doc aggr) (aggr * (11 / 10)) (it + 1) hd
    exact ⟨by omega, le_trans (hbody doc aggr) h2⟩

lemma loopAux_halving {Doc : Type} (body : Doc → ℚ → Doc) (count : Doc → ℕ)
    (t : ℕ) (hbody : ∀ d a, 2 * count (body d a) ≤ count d) :
    ∀ (N r : ℕ) (doc : Doc) (aggr : ℚ) (iteration : ℕ),
      count doc ≤ 2 ^ N * t → N ≤ r →
      (loopAux body count (t : ℤ) r doc aggr iteration).2 ≤ iteration + N ∧
      count (loopAux body count (t : ℤ) r doc aggr iteration).1 ≤ t := by
  intro N
  induction N with
  | zero =>
    intro r doc aggr it hcount _
    have hle : count doc ≤ t := by simpa using hcount
    cases r with
    | zero => exact ⟨le_refl it, hle⟩
    | succ r =>
      rw [loopAux_converged body count (t : ℤ) doc aggr it (by exact_mod_cast hle) r]
      exact ⟨Nat.le_add_right it 0, hle⟩
  | succ N ih =>
    intro r doc aggr it hcount hr
    cases r with
    | zero => exact absurd hr (by omega)
    | succ r =>
      simp only [loopAux]
      by_cases hg : (t : ℤ) < (count doc : ℤ)
      · rw [if_pos hg]
        have hp : (2 : ℕ) ^ (N + 1) * t = 2 * (2 ^ N * t) := by ring
        have hstep := hbody doc aggr
        have hhalf : count (body doc aggr) ≤ 2 ^ N * t := by omega
        obtain ⟨h1, h2⟩ := ih r (body doc aggr) (aggr * (11 / 10)) (it + 1)
          hhalf (by omega)
        exact ⟨by omega, h2⟩
      · rw [if_neg hg]
        have hle : count doc ≤ t := by exact_mod_cast not_lt.1 hg
        exact ⟨by omega, hle⟩

/-! ### Claim theorems -/

/-- Claim C1: for every text (given by its token encoding) and every
max_chunk_size at least 1, split_text_into_chunks produces an ordered
sequence of chunks whose concatenation is exactly the original token
encoding (no overlap, no gaps, order preserved), each chunk holds at most
max_chunk_size tokens, the reported counts are the chunk token counts,
and their sum equals the total token count of the text. -/
theorem split_text_into_chunks_partition {α : Type} (tokens : List α)
    (max_chunk_size : ℕ) (hmcs : 1 ≤ max_chunk_size) :
    (split_text_into_chunks tokens max_chunk_size).1.flatten = tokens ∧
    (∀ c ∈ (split_text_into_chunks tokens max_chunk_size).1,
      c.length ≤ max_chunk_size) ∧
    (split_text_into_chunks tokens max_chunk_size).2
      = (split_text_into_chunks tokens max_chunk_size).1.map List.length ∧
    (split_text_into_chunks tokens max_chunk_size).2.sum = tokens.length := by
  obtain ⟨h1, h2, h3⟩ :=
    splitGo_spec max_chunk_size hmcs tokens tokens.length 0 (by omega)
  have h1' : (split_text_into_chunks tokens max_chunk_size).1.flatten = tokens := by
    unfold split_text_into_chunks
    rw [h1, List.drop_zero]
  refine ⟨h1', fun c hc => h2 c hc, h3, ?_⟩
  have h4 : (split_text_into_chunks tokens max_chunk_size).2
      = (split_text_into_chunks tokens max_chunk_size).1.map List.length := h3
  rw [h4, ← List.length_flatten, h1']

theorem split_text_into_chunks_partition_witness :
    (split_text_into_chunks ([10, 11, 12] : List ℕ) 2).1.flatten = [10, 11, 12] ∧
    (split_text_into_chunks ([10, 11, 12] : List ℕ) 2).2.sum = 3 :=
  ⟨(split_text_into_chunks_partition [10, 11, 12] 2 (by decide)).1,
   (split_text_into_chunks_partition [10, 11, 12] 2 (by decide)).2.2.2⟩

/-- Claim C7, counterexample: a document with zero tokens produces zero
chunks, not one chunk — the splitting loop body never runs, so the claim
"exactly one chunk ... including the case of a Document with zero tokens"
fails on the empty token list. -/
theorem split_single_chunk_cex :
    split_text_into_chunks ([] : List ℕ) 5 = ([], []) ∧
    (split_text_into_chunks ([] : List ℕ) 5).1.length ≠ 1 := by
  exact ⟨rfl, by decide⟩

/-- Claim C7, amended: with max_chunk_size at least 1, a document whose
token count is at most max_chunk_size and at least 1 yields exactly one
chunk equal to the whole document; a document with zero tokens yields the
empty chunk list. -/
theorem split_single_chunk {α : Type} (tokens : List α) (max_chunk_size : ℕ)
    (hmcs : 1 ≤ max_chunk_size) (hle : tokens.length ≤ max_chunk_size) :
    (tokens ≠ [] →
      split_text_into_chunks tokens max_chunk_size = ([tokens], [tokens.length])) ∧
    (tokens = [] → split_text_into_chunks tokens max_chunk_size = ([], [])) := by
  constructor
  · intro hne
    exact split_single tokens max_chunk_size hmcs hle hne
  · intro hnil
    subst hnil
    rfl

theorem split_single_chunk_witness :
    split_text_into_chunks ([7, 8] : List ℕ) 3 = ([[7, 8]], [2]) :=
  (split_single_chunk [7, 8] 3 (by decide) (by decide)).1 (by decide)

/-- Claim C10: the splitter terminates only under the unstated
precondition max_chunk_size at least 1.  The loop index update is
start = min(start + max_chunk_size, len); for max_chunk_size at most 0 and
a text with at least one token the index never advances past 0, the guard
start < len holds after every number of loop steps, and so the while loop
never exits.  Moreover max_chunk_size = (model limit - 1000) - reserved
prompt tokens can indeed be non-positive. -/
theorem split_loop_nonpositive_diverges :
    max_chunk_size_of 4096 3097 ≤ 0 ∧
    ∀ max_chunk_size len : ℤ, max_chunk_size ≤ 0 → 1 ≤ len →
      ∀ n : ℕ,
        Nat.iterate (split_loop_next max_chunk_size len) n 0 < len ∧
        split_loop_next max_chunk_size len
            (Nat.iterate (split_loop_next max_chunk_size len) n 0)
          ≤ Nat.iterate (split_loop_next max_chunk_size len) n 0 := by
  constructor
  · decide
  · intro mcs len hmcs hlen n
    have hkey : ∀ m : ℕ, Nat.iterate (split_loop_next mcs len) m 0 ≤ 0 := by
      intro m
      induction m with
      | zero => exact le_refl 0
      | succ m ih =>
        rw [Function.iterate_succ_apply']
        have h1 : split_loop_next mcs len (Nat.iterate (split_loop_next mcs len) m 0)
            ≤ Nat.iterate (split_loop_next mcs len) m 0 + mcs :=
          min_le_left _ _
        omega
    have h2 : split_loop_next mcs len (Nat.iterate (split_loop_next mcs len) n 0)
        ≤ Nat.iterate (split_loop_next mcs len) n 0 + mcs :=
      min_le_left _ _
    have h3 := hkey n
    exact ⟨by omega, by omega⟩

theorem split_loop_nonpositive_diverges_witness :
    Nat.iterate (split_loop_next 0 1) 3 0 < 1 :=
  (split_loop_nonpositive_diverges.2 0 1 (by decide) (by decide) 3).1

/-- Claim C4: with totalTokens positive, chunkTokens at most totalTokens
and aggressionFactor at least 1, the allocator returns exactly
max(floor(((chunkTokens / totalTokens) * globalTokenTarget)
/ aggressionFactor / 1.3), 1) — the spec formula, stated by
spec_target_word_count — and in particular an integer at least 1.
The arithmetic is modelled exactly over the rationals; the int()
truncation and the floor of the spec formula agree because the max with 1
absorbs every difference on negative values. -/
theorem compute_target_word_count_correct (chunk_tokens_len total_tokens_len : ℕ)
    (token_target : ℤ) (aggression_factor : ℚ)
    (htotal : 0 < total_tokens_len) (hchunk : chunk_tokens_len ≤ total_tokens_len)
    (haggr : 1 ≤ aggression_factor) :
    compute_target_word_count_per_chunk chunk_tokens_len total_tokens_len
        token_target aggression_factor
      = spec_target_word_count chunk_tokens_len total_tokens_len
        token_target aggression_factor ∧
    1 ≤ compute_target_word_count_per_chunk chunk_tokens_len total_tokens_len
        token_target aggression_factor := by
  have hne : aggression_factor ≠ 0 := by
    intro h0
    rw [h0] at haggr
    exact absurd haggr (by norm_num)
  constructor
  · simp only [compute_target_word_count_per_chunk, spec_target_word_count,
      if_pos htotal, if_pos hne]
    rw [max_pyTrunc_one]
  · exact le_max_right _ 1

theorem compute_target_word_count_correct_witness :
    compute_target_word_count_per_chunk 1 2 130 1
        = spec_target_word_count 1 2 130 1 ∧
    1 ≤ compute_target_word_count_per_chunk 1 2 130 1 :=
  compute_target_word_count_correct 1 2 130 1 (by decide) (by decide) (by norm_num)

/-- Claim C5: with totalTokens = 0 the allocator takes the guarded branch
(the proportion is defined as 0 instead of dividing by zero) and returns
the minimum value 1, for every chunk size, token target and aggression
factor. -/
theorem compute_target_word_count_zero_total (chunk_tokens_len : ℕ)
    (token_target : ℤ) (aggression_factor : ℚ) :
    compute_target_word_count_per_chunk chunk_tokens_len 0
        token_target aggression_factor = 1 := by
  simp only [compute_target_word_count_per_chunk]
  rw [if_neg (lt_irrefl 0)]
  by_cases h : aggression_factor ≠ 0
  · rw [if_pos h]
    simp [pyTrunc]
  · rw [if_neg h]
    simp [pyTrunc]

/-- Claim C8: with the JSON flag set, every prompt template returned by
get_prompts (all seven compressor styles) contains the directive to
format the output as JSON; with the flag unset, no template contains it. -/
theorem get_prompts_json_directive :
    ((get_prompts true).2.all fun kv => mentionsJsonFormat kv.2) = true ∧
    ((get_prompts false).2.any fun kv => mentionsJsonFormat kv.2) = false := by
  constructor
  · decide
  · decide

/-- Claim C9: compress_chunk returns the (stripped) text produced by the
compression service on success; on any failure of the external call — a
raised exception, or a missing message content — it returns the empty
string instead of propagating the error, so a failed chunk contributes
empty text and the run is not aborted.  (The failure is also printed;
logging is I/O and outside the embedding.) -/
theorem compress_chunk_failure_contract
    (service : String → String → Except String (Option String))
    (chunk template : String) (target_word_count : ℤ) (sys_message : String) :
    (∀ e, service sys_message (pyFormat template target_word_count chunk)
        = Except.error e →
      compress_chunk service chunk template target_word_count sys_message = "") ∧
    (∀ t, service sys_message (pyFormat template target_word_count chunk)
        = Except.ok (some t) →
      compress_chunk service chunk template target_word_count sys_message
        = pyStrip t) ∧
    (service sys_message (pyFormat template target_word_count chunk)
        = Except.ok none →
      compress_chunk service chunk template target_word_count sys_message = "") := by
  refine ⟨?_, ?_, ?_⟩
  · intro e h
    simp [compress_chunk, h]
  · intro t h
    simp [compress_chunk, h]
  · intro h
    simp [compress_chunk, h]

theorem compress_chunk_failure_contract_witness :
    compress_chunk (fun _ _ => Except.error "boom") "some chunk"
        "Compress:\n\n{chunk_string}" 25 "sys" = "" :=
  (compress_chunk_failure_contract (fun _ _ => Except.error "boom") "some chunk"
    "Compress:\n\n{chunk_string}" 25 "sys").1 "boom" rfl

/-- Claim C2: if the input already satisfies tokens <= token_target, the
loop-entry check fails at once: the loop performs zero iterations (hence
zero compressor calls) and returns the input document unchanged.  In
general the loop ends converged — final token count at most the target —
exactly when the entry check found tokens <= token_target before the
100-iteration cap: an exit before the cap implies convergence, and a
non-converged final document means all 100 iterations ran. -/
theorem conv_loop_entry_check {Doc : Type} (body : Doc → ℚ → Doc)
    (count : Doc → ℕ) (token_target : ℤ) (large_text : Doc) :
    ((count large_text : ℤ) ≤ token_target →
      convergence_loop body count token_target large_text = (large_text, 0)) ∧
    ((convergence_loop body count token_target large_text).2 < 100 →
      (count (convergence_loop body count token_target large_text).1 : ℤ)
        ≤ token_target) ∧
    (token_target
        < (count (convergence_loop body count token_target large_text).1 : ℤ) →
      (convergence_loop body count token_target large_text).2 = 100) := by
  refine ⟨?_, ?_, ?_⟩
  · intro h
    exact loopAux_converged body count token_target large_text (6 / 5) 0 h 99
  · intro h
    exact loopAux_exit_converged body count token_target 100 large_text (6 / 5) 0 h
  · intro h
    have h1 := loopAux_iter_le body count token_target 100 large_text (6 / 5) 0
    by_contra hne
    have h2 : (convergence_loop body count token_target large_text).2 < 100 := by
      simp only [convergence_loop] at hne ⊢
      omega
    have h3 := loopAux_exit_converged body count token_target 100 large_text (6 / 5) 0 h2
    simp only [convergence_loop] at h
    omega

theorem conv_loop_entry_check_witness :
    convergence_loop (fun (d : ℕ) (_ : ℚ) => d) (fun d => d) 5 3 = (3, 0) :=
  (conv_loop_entry_check (fun (d : ℕ) (_ : ℚ) => d) (fun d => d) 5 3).1 (by decide)

/-- Claim C3: the loop performs at most 100 iterations for every input;
and whenever the compressor body never reduces the token count (for
instance the identity) while the input is above a non-negative target,
the loop runs all 100 iterations, exits exhausted with the document still
above the target, and the returned document is non-empty (positive token
count) — a warning situation, not an error. -/
theorem conv_loop_iteration_cap {Doc : Type} (body : Doc → ℚ → Doc)
    (count : Doc → ℕ) (token_target : ℤ) (large_text : Doc) :
    (convergence_loop body count token_target large_text).2 ≤ 100 ∧
    ((∀ d a, count d ≤ count (body d a)) →
      token_target < (count large_text : ℤ) → 0 ≤ token_target →
      (convergence_loop body count token_target large_text).2 = 100 ∧
      token_target
        < (count (convergence_loop body count token_target large_text).1 : ℤ) ∧
      0 < count (convergence_loop body count token_target large_text).1) := by
  constructor
  · exact loopAux_iter_le body count token_target 100 large_text (6 / 5) 0
  · intro hbody hinit htarget
    obtain ⟨h1, h2⟩ := loopAux_never_reduces body count token_target hbody 100
      large_text (6 / 5) 0 hinit
    refine ⟨h1, ?_, ?_⟩
    · exact lt_of_lt_of_le hinit (by exact_mod_cast h2)
    · have : token_target < (count (convergence_loop body count token_target
          large_text).1 : ℤ) := lt_of_lt_of_le hinit (by exact_mod_cast h2)
      omega

theorem conv_loop_iteration_cap_witness :
    (convergence_loop (fun (d : ℕ) (_ : ℚ) => d) (fun d => d) 0 1).2 = 100 ∧
    0 < (convergence_loop (fun (d : ℕ) (_ : ℚ) => d) (fun d => d) 0 1).1 :=
  ⟨((conv_loop_iteration_cap (fun (d : ℕ) (_ : ℚ) => d) (fun d => d) 0 1).2
      (fun d _ => le_refl d) (by decide) (by decide)).1,
   ((conv_loop_iteration_cap (fun (d : ℕ) (_ : ℚ) => d) (fun d => d) 0 1).2
      (fun d _ => le_refl d) (by decide) (by decide)).2.2⟩

/-- Claim C6, counterexample: the claim is false without a cap-side
condition.  With the halving compressor stub d/2, target 1 and an input of
2^101 tokens, ceil(log2(initialTokens/targetTokens)) = 101, yet the loop
stops at the 100-iteration cap with 2 tokens, strictly above the target:
the Converged state is never reached, let alone within 101 iterations. -/
theorem conv_loop_halving_cex :
    convergence_loop (fun (d : ℕ) (_ : ℚ) => d / 2) (fun d => d)
        ((1 : ℕ) : ℤ) (2 ^ 101) = (2, 100) ∧
    Nat.clog 2 ((2 ^ 101 + 1 - 1) / 1) = 101 := by
  constructor
  · decide
  · show Nat.clog 2 (2 ^ 101) = 101
    exact Nat.clog_pow 2 101 (by norm_num)

/-- Claim C6, amended: if additionally ceil(log2(initialTokens / target))
= clog 2 (ceiling division of the counts) does not exceed the iteration
cap 100, then a compressor body that at least halves the token count each
iteration drives the loop into the Converged state within that many
iterations: the iteration counter stays within the bound and the final
token count is at most the target. -/
theorem conv_loop_halving_converges {Doc : Type} (body : Doc → ℚ → Doc)
    (count : Doc → ℕ) (t : ℕ) (large_text : Doc) (ht : 0 < t)
    (hbody : ∀ d a, 2 * count (body d a) ≤ count d)
    (hcap : Nat.clog 2 ((count large_text + t - 1) / t) ≤ 100) :
    (convergence_loop body count (t : ℤ) large_text).2
      ≤ Nat.clog 2 ((count large_text + t - 1) / t) ∧
    count (convergence_loop body count (t : ℤ) large_text).1 ≤ t := by
  have hceil : count large_text ≤ ((count large_text + t - 1) / t) * t := by
    have hdm := Nat.div_add_mod (count large_text + t - 1) t
    have hmod : (count large_text + t - 1) % t < t := Nat.mod_lt _ ht
    have hcomm : t * ((count large_text + t - 1) / t)
        = ((count large_text + t - 1) / t) * t := Nat.mul_comm _ _
    omega
  have hpow : (count large_text + t - 1) / t
      ≤ 2 ^ Nat.clog 2 ((count large_text + t - 1) / t) :=
    Nat.le_pow_clog (by norm_num) _
  have hinit : count large_text
      ≤ 2 ^ Nat.clog 2 ((count large_text + t - 1) / t) * t :=
    le_trans hceil (Nat.mul_le_mul_right t hpow)
  have h := loopAux_halving body count t hbody
    (Nat.clog 2 ((count large_text + t - 1) / t)) 100 large_text (6 / 5) 0
    hinit hcap
  simp only [convergence_loop]
  simpa using h

theorem conv_loop_halving_converges_witness :
    (convergence_loop (fun (d : ℕ) (_ : ℚ) => d / 2) (fun d => d)
        ((1 : ℕ) : ℤ) 8).2 ≤ Nat.clog 2 ((8 + 1 - 1) / 1) ∧
    (convergence_loop (fun (d : ℕ) (_ : ℚ) => d / 2) (fun d => d)
        ((1 : ℕ) : ℤ) 8).1 ≤ 1 :=
  conv_loop_halving_converges (fun (d : ℕ) (_ : ℚ) => d / 2) (fun d => d) 1 8
    (by decide) (fun d _ => by show 2 * (d / 2) ≤ d; omega)
    (by
      show Nat.clog 2 8 ≤ 100
      rw [show (8 : ℕ) = 2 ^ 3 from rfl, Nat.clog_pow 2 3 (by norm_num)]
      norm_num)

end LlmTextCompressor
